import Mathlib

/-!
Verification of the `email-rotation` scripts: the fair rotation extender
(`extend_rotation.py`) and the idempotent advisory-notification reconciler
(`email_about_issues.py`).

Timestamps are modelled as integers (seconds since the Unix epoch, UTC).
Python `datetime` arithmetic on tz-aware UTC values is exact second
arithmetic, `//` and `%` are floor division and floor modulus, which for
positive divisors coincide with `Int.fdiv` and `Int.emod`.  Fallible steps
(popping an empty deque, a missing schedule) are modelled with
`Except` / `Option`.  Sorting: Python `sorted` is a stable sort, modelled
with `List.insertionSort` (also stable).
-/

/-- `datetime.datetime.min.replace(tzinfo=utc)` as a Unix timestamp
(0001-01-01 00:00:00 UTC). The exact value is irrelevant to the proofs;
it only has to be minimal among timestamps in use. -/
def MIN_TIME_UTC : Int := -62135596800

/-- One week, in seconds (`datetime.timedelta(weeks=1)`). -/
def SECONDS_PER_WEEK : Int := 604800

/-- One day, in seconds. -/
def SECONDS_PER_DAY : Int := 86400

/-- `rotations.Rotation`: one on-call shift. -/
structure Rotation where
  start_time : Int
  members : List String
deriving DecidableEq, Repr

/-- Python `dict` assignment `d[k] = v`: replaces the value in place if the
key exists (keeping its position), otherwise appends the new key at the
end, matching insertion-order semantics of `dict`. -/
def dictInsert : List (String × Int) → String → Int → List (String × Int)
  | [], k, v => [(k, v)]
  | (k1, v1) :: rest, k, v =>
    if k1 = k then (k1, v) :: rest else (k1, v1) :: dictInsert rest k v

/-- `find_most_recent_service_times` from `extend_rotation.py`: start every
pool member at `MIN_TIME_UTC`, then overwrite with each rotation's start
time, oldest rotation first. -/
def find_most_recent_service_times (rots : List Rotation) (members : List String) :
    List (String × Int) :=
  let init := members.foldl (fun d m => dictInsert d m MIN_TIME_UTC) []
  rots.foldl
    (fun d rot => rot.members.foldl (fun d2 m => dictInsert d2 m rot.start_time) d)
    init

/-- The deque built in `generate_additional_rotations`: member names sorted
ascending by last service time (Python `sorted` with `key=item[1]` is a
stable sort by the timestamp). -/
def least_recent_assignees (rots : List Rotation) (members : List String) :
    List String :=
  ((find_most_recent_service_times rots members).insertionSort
      (fun a b => a.2 ≤ b.2)).map Prod.fst

/-- The anchor used when there are no prior rotations, from
`generate_additional_rotations`:
`midnight = now.replace(hour=0, minute=0, second=0, microsecond=0)` and
`midnight - timedelta(days=midnight.weekday() + 1)`.
Python `weekday()` is Monday = 0 … Sunday = 6; 1970-01-01 was a Thursday
(weekday 3). -/
def first_rotation_start (now : Int) : Int :=
  let midnight := now - now.emod SECONDS_PER_DAY
  let weekday := (midnight.fdiv SECONDS_PER_DAY + 3).emod 7
  midnight - SECONDS_PER_DAY * (weekday + 1)

/-- Failure modes of the generator. `indexError` is what
`collections.deque.popleft` raises on an empty deque — the only error the
code can actually produce. `insufficientMembers` is modelled from the
spec: the spec names an `InsufficientMembers` error condition, but no
corresponding check or error exists anywhere in the source. -/
inductive GenError where
  | indexError
  | insufficientMembers
deriving DecidableEq, Repr

/-- The inner loop `for _ in range(p): people.append(deque.popleft())`:
pop `p` elements one by one off the front, failing with `IndexError` if
the deque runs out. -/
def popN : Nat → List String → Except GenError (List String × List String)
  | 0, dq => .ok ([], dq)
  | _ + 1, [] => .error .indexError
  | p + 1, x :: dq =>
    match popN p dq with
    | .error e => .error e
    | .ok (taken, rest) => .ok (x :: taken, rest)

/-- The `while True:` loop of `generate_additional_rotations`, truncated to
the first `n` yielded rotations (`itertools.islice`): pop
`people_per_rotation` members, yield a rotation at the current start time,
push the popped members back on the end, advance the start by the rotation
length. -/
def genRotations (p : Nat) (len : Int) :
    List String → Int → Nat → Except GenError (List Rotation)
  | _, _, 0 => .ok []
  | dq, start, n + 1 =>
    match popN p dq with
    | .error e => .error e
    | .ok (taken, rest) =>
      match genRotations p len (rest ++ taken) (start + len) n with
      | .error e => .error e
      | .ok rs => .ok (⟨start, taken⟩ :: rs)

/-- `generate_additional_rotations(prior_rotations, members,
rotation_length_weeks, people_per_rotation, now)`, truncated to its first
`n` yields. -/
def generate_additional_rotations (prior : List Rotation) (members : List String)
    (rotation_length_weeks : Nat) (people_per_rotation : Nat) (now : Int)
    (n : Nat) : Except GenError (List Rotation) :=
  let dq := least_recent_assignees prior members
  let rotation_length : Int := SECONDS_PER_WEEK * rotation_length_weeks
  let start :=
    match prior.getLast? with
    | some last => last.start_time + rotation_length
    | none => first_rotation_start now
  genRotations people_per_rotation rotation_length dq start n

/-- The call `main` makes in `extend_rotation.py` (lines 209-215): it passes
`people_per_rotation` and `rotation_length_weeks` positionally into the
`rotation_length_weeks` and `people_per_rotation` parameter slots, in that
(swapped) order, then takes `num` rotations with `itertools.islice`. -/
def main_extra_rotations (current : List Rotation) (members : List String)
    (rotation_length_weeks : Nat) (people_per_rotation : Nat) (now : Int)
    (num : Nat) : Except GenError (List Rotation) :=
  generate_additional_rotations current members people_per_rotation
    rotation_length_weeks now num

/-- Ceiling division of integers, for positive divisors:
`math.ceil(a / b)`. -/
def intCeilDiv (a b : Int) : Int := -((-a).fdiv b)

/-- `calculate_rotations_to_cover(when, rotation_length_weeks,
current_rotations)`. Returns `none` for the `ValueError` raised on an
empty schedule. The Python code computes
`ceil(ceil(delta_seconds / 86400) / 7 / rotation_length_weeks)` with exact
`ceil(x / 86400)` and then real division by `7` and by
`rotation_length_weeks`; the nested exact divisions collapse to a single
ceiling division by `7 * rotation_length_weeks` (real division is modelled
exactly, not with floating point). -/
def calculate_rotations_to_cover (when : Int) (rotation_length_weeks : Nat)
    (current_rotations : List Rotation) : Option Int :=
  match current_rotations.getLast? with
  | none => none
  | some last_rotation =>
    let rotation_length : Int := SECONDS_PER_WEEK * rotation_length_weeks
    let end_of_last_rotation := last_rotation.start_time + rotation_length
    if when ≤ end_of_last_rotation then
      some 0
    else
      let delta := when - end_of_last_rotation
      let days_needed := intCeilDiv delta SECONDS_PER_DAY
      some (intCeilDiv days_needed (7 * rotation_length_weeks))

/-- Modelled from the spec: "the most recent fixed weekly boundary (e.g.,
the most recent Sunday 00:00 UTC) at or before `now`". 1970-01-04 00:00
UTC (timestamp 259200) was a Sunday; the most recent Sunday midnight at or
before `now` is `now` minus its positive offset into the current
Sunday-anchored week. -/
def mostRecentSundayMidnightAtOrBefore (now : Int) : Int :=
  now - (now - 259200).emod SECONDS_PER_WEEK

/-- Nag threshold from `email_about_issues.py`:
`SECONDS_BEFORE_ROTATION_LIST_END_TO_NAG = 14 * 24 * 60 * 60`. -/
def SECONDS_BEFORE_ROTATION_LIST_END_TO_NAG : Int := 14 * 24 * 60 * 60

/-- Cooldown from `email_about_issues.py`:
`SECONDS_BETWEEN_ROTATION_REFRESH_EMAILS = 24 * 60 * 60`. -/
def SECONDS_BETWEEN_ROTATION_REFRESH_EMAILS : Int := 24 * 60 * 60

/-- `SecurityAdvisory` from `email_about_issues.py`. -/
structure SecurityAdvisory where
  id : String
  title : String
  collaborators : List String
deriving DecidableEq, Repr

/-- `ScriptState` from `email_about_issues.py`. The last-alert timestamp is
`float | None` in Python, modelled as `Option Int`. -/
structure ScriptState where
  seen_advisories : List String
  last_alert_about_rotation : Option Int := none
deriving DecidableEq, Repr

/-- The JSON document shape read from the state file; `dict.get` returns
`None` for missing keys, hence the `Option` fields. -/
structure StateJson where
  seen_advisories : Option (List String)
  last_alert_about_rotation : Option Int
deriving DecidableEq, Repr

/-- `ScriptState.from_json`: `json_data.get("seen_advisories", [])` and
`json_data.get("last_alert_about_rotation")`. -/
def ScriptState.from_json (j : StateJson) : ScriptState :=
  { seen_advisories := j.seen_advisories.getD []
    last_alert_about_rotation := j.last_alert_about_rotation }

/-- `ScriptState.load_from_file`: the file system is modelled as the
optional contents of the state file; a missing file
(`FileNotFoundError`) yields `ScriptState(seen_advisories=[])`. -/
def ScriptState.load_from_file (file_contents : Option StateJson) : ScriptState :=
  match file_contents with
  | none => { seen_advisories := [] }
  | some j => ScriptState.from_json j

/-- `RotationState` from `email_about_issues.py`. The Python `set[str]`
fields are modelled as lists with membership semantics. -/
structure RotationState where
  all_members : List String
  current_members : List String
  final_rotation_start : Int
deriving DecidableEq, Repr

/-- One notification attempt made by `run_script`: a call to
`email_about_advisory(... advisory=advisory, oncall_members=current_oncall)`.
`oncall` records the on-call members the notification is addressed
to / names. -/
structure Notification where
  advisory : SecurityAdvisory
  oncall : List String
deriving DecidableEq, Repr

/-- Python truthiness of `float | None`: `None` and `0.0` are falsy. This
is the test `if state.last_alert_about_rotation:` performs. -/
def pyTruthy : Option Int → Bool
  | none => false
  | some t => t != 0

/-- `sorted(...)` over strings (stable sort, though on a set or on
deduplicated ids stability is irrelevant). -/
def sortedStrings (l : List String) : List String :=
  l.insertionSort (fun a b => a ≤ b)

/-- `current_oncall = sorted(rotation_state.current_members)`: the members
set (deduplicated) in sorted order. -/
def current_oncall_of (current_members : List String) : List String :=
  sortedStrings current_members.dedup

/-- The body of the `for advisory in draft_security_advisories:` loop of
`run_script`, threading the accumulated notification attempts and the
`failed_alerts_for_advisories` set (modelled as the list of ids added to
it). `email_enabled` is whether `invocation.email_info` is set (False in
dry-run mode, where the loop `continue`s before sending); `sendOk` is the
outcome of `email_about_advisory` for each advisory. -/
def run_script_step (current_members : List String) (seen : List String)
    (email_enabled : Bool) (sendOk : SecurityAdvisory → Bool)
    (acc : List Notification × List String) (a : SecurityAdvisory) :
    List Notification × List String :=
  if a.id ∈ seen then acc
  else if a.collaborators.any (fun m => m ∈ current_members) then acc
  else if email_enabled then
    let ok := sendOk a
    (acc.1 ++ [⟨a, current_oncall_of current_members⟩],
     if ok then acc.2 else acc.2 ++ [a.id])
  else acc

/-- `run_script` from `email_about_issues.py`, as a function of the fetched
advisory list (the external fetch collaborator's result), the current
on-call member set, the persisted state, the email mode and the send
outcomes. Returns the notification attempts made and the new state, whose
`seen_advisories` is
`sorted(x.id for x in draft_security_advisories
        if x.id not in failed_alerts_for_advisories)`. -/
def run_script (advisories : List SecurityAdvisory) (current_members : List String)
    (script_state : ScriptState) (email_enabled : Bool)
    (sendOk : SecurityAdvisory → Bool) : List Notification × ScriptState :=
  let loop := advisories.foldl
    (run_script_step current_members script_state.seen_advisories email_enabled sendOk)
    ([], [])
  (loop.1,
   { script_state with
       seen_advisories :=
         sortedStrings ((advisories.filter (fun a => a.id ∉ loop.2)).map (fun a => a.id)) })

/-- The per-advisory decision of the `run_script` loop: `some` when the
loop reaches the send (neither skip fired and email is enabled), i.e. the
notification it attempts. Used to state the loop characterization. -/
def notif_attempt (current_members : List String) (seen : List String)
    (email_enabled : Bool) (a : SecurityAdvisory) : Option Notification :=
  if a.id ∈ seen then none
  else if a.collaborators.any (fun m => m ∈ current_members) then none
  else if email_enabled then some ⟨a, current_oncall_of current_members⟩
  else none

/-- The ids that end up in `failed_alerts_for_advisories`: an attempted
notification whose send failed. -/
def failed_alert_ids (advisories : List SecurityAdvisory)
    (current_members : List String) (seen : List String) (email_enabled : Bool)
    (sendOk : SecurityAdvisory → Bool) : List String :=
  advisories.filterMap (fun a =>
    match notif_attempt current_members seen email_enabled a with
    | some _ => if sendOk a then none else some a.id
    | none => none)

/-- `maybe_email_about_rotation_end`, with `email_enabled` standing for
`invocation.email_info` being present and `sendOk` for the outcome of
`try_email_llvm_security_team`. The returned `Bool` is whether an alert
was produced: the dry-run "would send" branch or a successful send. On a
failed send the original state is returned so the alert is retried
immediately next run. -/
def maybe_email_about_rotation_end (now : Int) (email_enabled : Bool)
    (sendOk : Bool) (state : ScriptState) (rotation_state : Option RotationState) :
    Bool × ScriptState :=
  let too_early :=
    match rotation_state with
    | some rs => decide (rs.final_rotation_start - now > SECONDS_BEFORE_ROTATION_LIST_END_TO_NAG)
    | none => false
  if too_early then (false, state)
  else if pyTruthy state.last_alert_about_rotation &&
      decide (now - (state.last_alert_about_rotation.getD 0) <
        SECONDS_BETWEEN_ROTATION_REFRESH_EMAILS) then
    (false, state)
  else
    let new_state := { state with last_alert_about_rotation := some now }
    if ¬ email_enabled then (true, new_state)
    else if sendOk then (true, new_state)
    else (false, state)

theorem popN_ok_of_le :
    ∀ (p : Nat) (dq : List String), p ≤ dq.length →
      popN p dq = .ok (dq.take p, dq.drop p) := by
  intro p
  induction p with
  | zero => intro dq _; simp [popN]
  | succ q ih =>
    intro dq hp
    match dq with
    | [] => simp at hp
    | x :: rest =>
      have hq : q ≤ rest.length := by simpa using hp
      simp [popN, ih rest hq]

theorem popN_error_of_lt :
    ∀ (p : Nat) (dq : List String), dq.length < p →
      popN p dq = .error .indexError := by
  intro p
  induction p with
  | zero => intro dq h; simp at h
  | succ q ih =>
    intro dq hp
    match dq with
    | [] => rfl
    | x :: rest =>
      have hq : rest.length < q := by simpa using hp
      simp [popN, ih rest hq]

theorem popN_le_of_ok (p : Nat) (dq : List String) (res : List String × List String)
    (h : popN p dq = .ok res) : p ≤ dq.length := by
  by_contra hlt
  rw [popN_error_of_lt p dq (by omega)] at h
  exact absurd h (by simp)

/-- Success and shape of the truncated generator loop when the deque is at
least as long as a shift: it yields exactly `n` rotations and the `k`-th
one's members are the first `p` elements of the deque rotated by `k * p`.
-/
theorem genRotations_ok (p : Nat) (len : Int) :
    ∀ (n : Nat) (dq : List String) (start : Int), p ≤ dq.length →
      ∃ rs, genRotations p len dq start n = .ok rs ∧ rs.length = n ∧
        ∀ k (hk : k < rs.length), rs[k].members = (dq.rotate (p * k)).take p := by
  intro n
  induction n with
  | zero =>
    intro dq start _
    exact ⟨[], rfl, rfl, by intro k hk; simp at hk⟩
  | succ m ih =>
    intro dq start hp
    have hrot : dq.rotate p = dq.drop p ++ dq.take p :=
      List.rotate_eq_drop_append_take hp
    have hlen2 : p ≤ (dq.drop p ++ dq.take p).length := by
      have : (dq.drop p ++ dq.take p).length = dq.length := by
        rw [← hrot, List.length_rotate]
      omega
    obtain ⟨rs2, heq2, hlen3, hmem2⟩ := ih (dq.drop p ++ dq.take p) (start + len) hlen2
    refine ⟨⟨start, dq.take p⟩ :: rs2, ?_, by simpa using hlen3, ?_⟩
    · simp [genRotations, popN_ok_of_le p dq hp, heq2]
    · intro k hk
      match k with
      | 0 => simp
      | j + 1 =>
        have hj : j < rs2.length := by simpa using hk
        have := hmem2 j hj
        simp only [List.getElem_cons_succ]
        rw [this, ← hrot, List.rotate_rotate]
        congr 2
        ring

theorem genRotations_deque_long_enough (p : Nat) (len : Int) (dq : List String)
    (start : Int) (m : Nat) (rs : List Rotation)
    (h : genRotations p len dq start (m + 1) = .ok rs) : p ≤ dq.length := by
  unfold genRotations at h
  cases hpop : popN p dq with
  | error e => rw [hpop] at h; simp at h
  | ok res => exact popN_le_of_ok p dq res hpop

/-- Membership in an initial segment, by index. -/
theorem mem_take_iff {α : Type} (x : α) (l : List α) (p : Nat) :
    x ∈ l.take p ↔ ∃ i, ∃ h : i < l.length, i < p ∧ l[i] = x := by
  constructor
  · intro hx
    obtain ⟨i, hi, hgi⟩ := List.mem_iff_getElem.mp hx
    have hil : i < l.length := by
      have := List.length_take p l
      omega
    have hip : i < p := by
      have := List.length_take p l
      omega
    rw [List.getElem_take] at hgi
    exact ⟨i, hil, hip, hgi⟩
  · rintro ⟨i, hil, hip, hgi⟩
    have hlt : i < (l.take p).length := by
      rw [List.length_take]; omega
    have hg2 : (l.take p)[i] = x := by
      rw [List.getElem_take]; exact hgi
    exact hg2 ▸ List.getElem_mem hlt

/-- Membership in the `k`-th generated shift, in terms of deque indices,
for shifts no longer than the deque. -/
theorem mem_shift_iff (dq : List String) (t p : Nat) (x : String)
    (hp : p ≤ dq.length) :
    x ∈ (dq.rotate t).take p ↔
      ∃ s, s < p ∧ ∃ h : (s + t) % dq.length < dq.length,
        dq[(s + t) % dq.length] = x := by
  rw [mem_take_iff]
  constructor
  · rintro ⟨i, hil, hip, hgi⟩
    rw [List.getElem_rotate] at hgi
    have hlen : (dq.rotate t).length = dq.length := List.length_rotate dq t
    exact ⟨i, hip, by rw [hlen] at hil; exact Nat.mod_lt _ (by omega), hgi⟩
  · rintro ⟨s, hsp, hmod, hgi⟩
    have hsM : s < (dq.rotate t).length := by
      rw [List.length_rotate]; omega
    refine ⟨s, hsM, hsp, ?_⟩
    rw [List.getElem_rotate]
    exact hgi

theorem dictInsert_fst (d : List (String × Int)) (k : String) (v : Int) :
    (dictInsert d k v).map Prod.fst =
      if k ∈ d.map Prod.fst then d.map Prod.fst else d.map Prod.fst ++ [k] := by
  induction d with
  | nil => simp [dictInsert]
  | cons hd tl ih =>
    obtain ⟨k1, v1⟩ := hd
    by_cases hk : k1 = k
    · subst hk
      simp [dictInsert]
    · simp only [dictInsert, if_neg hk, List.map_cons, ih]
      by_cases hmem : k ∈ tl.map Prod.fst
      · simp [hmem, Ne.symm hk]
      · simp [hmem, Ne.symm hk]

theorem mem_dictInsert_fst (d : List (String × Int)) (k k0 : String) (v : Int) :
    k0 ∈ (dictInsert d k v).map Prod.fst ↔ k0 ∈ d.map Prod.fst ∨ k0 = k := by
  rw [dictInsert_fst]
  by_cases hmem : k ∈ d.map Prod.fst
  · simp only [if_pos hmem]
    constructor
    · exact fun h => Or.inl h
    · rintro (h | h)
      · exact h
      · exact h ▸ hmem
  · simp [if_neg hmem]

theorem nodup_dictInsert_fst (d : List (String × Int)) (k : String) (v : Int)
    (h : (d.map Prod.fst).Nodup) : ((dictInsert d k v).map Prod.fst).Nodup := by
  rw [dictInsert_fst]
  by_cases hmem : k ∈ d.map Prod.fst
  · simpa [if_pos hmem] using h
  · rw [if_neg hmem]
    rw [List.nodup_append]
    exact ⟨h, List.nodup_singleton k, by
      intro a ha hb
      simp only [List.mem_singleton] at hb
      exact hmem (hb ▸ ha)⟩

theorem length_dictInsert_le (d : List (String × Int)) (k : String) (v : Int) :
    (dictInsert d k v).length ≤ d.length + 1 := by
  have h1 : (dictInsert d k v).length = ((dictInsert d k v).map Prod.fst).length :=
    (List.length_map _ _).symm
  have h2 : (d.map Prod.fst).length = d.length := List.length_map _ _
  rw [h1, dictInsert_fst]
  by_cases hmem : k ∈ d.map Prod.fst
  · simp [if_pos hmem, h2]
  · simp [if_neg hmem, h2]

theorem members_fold_nodup (ms : List String) (t : Int) :
    ∀ d : List (String × Int), (d.map Prod.fst).Nodup →
      ((ms.foldl (fun d2 m => dictInsert d2 m t) d).map Prod.fst).Nodup := by
  induction ms with
  | nil => intro d h; simpa using h
  | cons m rest ih =>
    intro d h
    exact ih (dictInsert d m t) (nodup_dictInsert_fst d m t h)

theorem members_fold_mem_mono (ms : List String) (t : Int) (k0 : String) :
    ∀ d : List (String × Int), k0 ∈ d.map Prod.fst →
      k0 ∈ (ms.foldl (fun d2 m => dictInsert d2 m t) d).map Prod.fst := by
  induction ms with
  | nil => intro d h; simpa using h
  | cons m rest ih =>
    intro d h
    exact ih (dictInsert d m t) ((mem_dictInsert_fst d m k0 t).mpr (Or.inl h))

theorem members_fold_mem_self (ms : List String) (t : Int) (k0 : String)
    (hk : k0 ∈ ms) :
    ∀ d : List (String × Int),
      k0 ∈ (ms.foldl (fun d2 m => dictInsert d2 m t) d).map Prod.fst := by
  induction ms with
  | nil => cases hk
  | cons m rest ih =>
    intro d
    rcases List.mem_cons.mp hk with h | h
    · exact members_fold_mem_mono rest t k0 (dictInsert d m t)
        ((mem_dictInsert_fst d m k0 t).mpr (Or.inr h))
    · exact ih h (dictInsert d m t)

theorem members_fold_length_le (ms : List String) (t : Int) :
    ∀ d : List (String × Int),
      (ms.foldl (fun d2 m => dictInsert d2 m t) d).length ≤ d.length + ms.length := by
  induction ms with
  | nil => intro d; simp
  | cons m rest ih =>
    intro d
    calc (rest.foldl (fun d2 m => dictInsert d2 m t) (dictInsert d m t)).length
        ≤ (dictInsert d m t).length + rest.length := ih (dictInsert d m t)
      _ ≤ (d.length + 1) + rest.length := by
          have := length_dictInsert_le d m t
          omega
      _ = d.length + (m :: rest).length := by simp; omega

theorem rots_fold_nodup (rots : List Rotation) :
    ∀ d : List (String × Int), (d.map Prod.fst).Nodup →
      ((rots.foldl
        (fun d rot => rot.members.foldl (fun d2 m => dictInsert d2 m rot.start_time) d)
        d).map Prod.fst).Nodup := by
  induction rots with
  | nil => intro d h; simpa using h
  | cons r rest ih =>
    intro d h
    exact ih _ (members_fold_nodup r.members r.start_time d h)

theorem rots_fold_mem_mono (rots : List Rotation) (k0 : String) :
    ∀ d : List (String × Int), k0 ∈ d.map Prod.fst →
      k0 ∈ ((rots.foldl
        (fun d rot => rot.members.foldl (fun d2 m => dictInsert d2 m rot.start_time) d)
        d).map Prod.fst) := by
  induction rots with
  | nil => intro d h; simpa using h
  | cons r rest ih =>
    intro d h
    exact ih _ (members_fold_mem_mono r.members r.start_time k0 d h)

theorem service_times_keys_nodup (rots : List Rotation) (members : List String) :
    ((find_most_recent_service_times rots members).map Prod.fst).Nodup := by
  unfold find_most_recent_service_times
  exact rots_fold_nodup rots _ (members_fold_nodup members MIN_TIME_UTC [] (by simp))

theorem mem_service_times_keys (rots : List Rotation) (members : List String)
    (m : String) (hm : m ∈ members) :
    m ∈ (find_most_recent_service_times rots members).map Prod.fst := by
  unfold find_most_recent_service_times
  exact rots_fold_mem_mono rots m _ (members_fold_mem_self members MIN_TIME_UTC m hm [])

theorem service_times_empty_length_le (members : List String) :
    (find_most_recent_service_times [] members).length ≤ members.length := by
  unfold find_most_recent_service_times
  simpa using members_fold_length_le members MIN_TIME_UTC []

theorem least_recent_assignees_nodup (rots : List Rotation) (members : List String) :
    (least_recent_assignees rots members).Nodup := by
  unfold least_recent_assignees
  have hperm : ((find_most_recent_service_times rots members).insertionSort
      (fun a b => a.2 ≤ b.2)).Perm (find_most_recent_service_times rots members) :=
    List.perm_insertionSort _ _
  exact ((hperm.map Prod.fst).nodup_iff).mpr (service_times_keys_nodup rots members)

theorem mem_least_recent_assignees (rots : List Rotation) (members : List String)
    (m : String) (hm : m ∈ members) : m ∈ least_recent_assignees rots members := by
  unfold least_recent_assignees
  have hperm : ((find_most_recent_service_times rots members).insertionSort
      (fun a b => a.2 ≤ b.2)).Perm (find_most_recent_service_times rots members) :=
    List.perm_insertionSort _ _
  exact ((hperm.map Prod.fst).mem_iff).mpr (mem_service_times_keys rots members m hm)

theorem least_recent_assignees_empty_length_le (members : List String) :
    (least_recent_assignees [] members).length ≤ members.length := by
  unfold least_recent_assignees
  have hperm : ((find_most_recent_service_times [] members).insertionSort
      (fun a b => a.2 ≤ b.2)).Perm (find_most_recent_service_times [] members) :=
    List.perm_insertionSort _ _
  calc (((find_most_recent_service_times [] members).insertionSort
        (fun a b => a.2 ≤ b.2)).map Prod.fst).length
      = ((find_most_recent_service_times [] members).insertionSort
        (fun a b => a.2 ≤ b.2)).length := List.length_map _ _
    _ = (find_most_recent_service_times [] members).length := hperm.length_eq
    _ ≤ members.length := service_times_empty_length_le members

/-- The fairness core, on deque indices: if a deque slot is popped in both
shift `i` and shift `j` (`i < j`), then every deque slot is popped in some
shift up to `j`. Pops are grouped `p` at a time, so shift `k` pops the
(cyclic) slots `p * k + s` for `s < p`. -/
theorem fairness_arith (M p i j q s1 s2 r : Nat)
    (hs1 : s1 < p) (hs2 : s2 < p) (hij : i < j) (hrM : r < M)
    (h1 : (s1 + p * i) % M = q) (h2 : (s2 + p * j) % M = q) :
    r / p ≤ j ∧ (r % p + p * (r / p)) % M = r := by
  have hp : 0 < p := by omega
  have hM : 0 < M := by omega
  have hlt : s1 + p * i < s2 + p * j := by
    have : p * i + p ≤ p * j := by
      have : p * (i + 1) ≤ p * j := Nat.mul_le_mul_left p (by omega)
      simpa [Nat.mul_succ] using this
    omega
  have hmodeq : (s1 + p * i) % M = (s2 + p * j) % M := by rw [h1, h2]
  have hdvd : M ∣ (s2 + p * j) - (s1 + p * i) := by
    have := (Nat.modEq_iff_dvd' (le_of_lt hlt)).mp hmodeq
    exact this
  have hMle : M ≤ s2 + p * j := by
    rcases hdvd with ⟨c, hc⟩
    rcases Nat.eq_zero_or_pos c with h0 | h0
    · subst h0
      simp only [Nat.mul_zero] at hc
      omega
    · have h1 : M ≤ M * c := Nat.le_mul_of_pos_right M h0
      omega
  have hrlt : r < p * (j + 1) := by
    have : s2 + p * j < p * (j + 1) := by
      simp [Nat.mul_succ]; omega
    omega
  constructor
  · have : r / p < j + 1 := (Nat.div_lt_iff_lt_mul hp).mpr (by
      calc r < p * (j + 1) := hrlt
        _ = (j + 1) * p := Nat.mul_comm p (j + 1))
    omega
  · have hdm : r % p + p * (r / p) = r := by
      rw [Nat.add_comm]
      exact Nat.div_add_mod r p
    rw [hdm]
    exact Nat.mod_eq_of_lt hrM

/-- C3: For every member pool, every prior schedule, and every N, in the
first N shifts produced by the rotation extender no member appears in two
distinct shifts before every other pool member has appeared in at least
one shift (if some member sits in shifts `i < j`, every pool member
already sits in some shift `k ≤ j`), under the stated assumption that the
pool size is an exact multiple of `membersPerShift`. -/
theorem generate_additional_rotations_fair
    (prior : List Rotation) (members : List String)
    (rotation_length_weeks people_per_rotation : Nat) (now : Int) (n : Nat)
    (_hdvd : people_per_rotation ∣ members.length)
    (rs : List Rotation)
    (hrs : generate_additional_rotations prior members rotation_length_weeks
      people_per_rotation now n = .ok rs)
    (i j : Nat) (hij : i < j) (hj : j < rs.length)
    (x y : String)
    (hxi : x ∈ (rs.get ⟨i, lt_trans hij hj⟩).members)
    (hxj : x ∈ (rs.get ⟨j, hj⟩).members)
    (hy : y ∈ members) :
    ∃ k, k ≤ j ∧ ∃ hk : k < rs.length, y ∈ (rs.get ⟨k, hk⟩).members := by
  simp only [generate_additional_rotations] at hrs
  set dq := least_recent_assignees prior members with hdq
  set start := (match prior.getLast? with
    | some last => last.start_time + SECONDS_PER_WEEK * rotation_length_weeks
    | none => first_rotation_start now) with hstart
  match n, hrs with
  | 0, hrs =>
    simp only [genRotations] at hrs
    cases hrs
    simp at hj
  | m + 1, hrs =>
    have hp : people_per_rotation ≤ dq.length :=
      genRotations_deque_long_enough _ _ _ _ _ _ hrs
    obtain ⟨rs0, heq, hlen, hmem⟩ :=
      genRotations_ok people_per_rotation (SECONDS_PER_WEEK * rotation_length_weeks)
        (m + 1) dq start hp
    rw [heq] at hrs
    cases hrs
    have hxi2 : x ∈ (dq.rotate (people_per_rotation * i)).take people_per_rotation := by
      rw [← hmem i (lt_trans hij hj)]
      simpa using hxi
    have hxj2 : x ∈ (dq.rotate (people_per_rotation * j)).take people_per_rotation := by
      rw [← hmem j hj]
      simpa using hxj
    obtain ⟨s1, hs1p, hq1, hg1⟩ := (mem_shift_iff dq _ _ x hp).mp hxi2
    obtain ⟨s2, hs2p, hq2, hg2⟩ := (mem_shift_iff dq _ _ x hp).mp hxj2
    have hnd : dq.Nodup := least_recent_assignees_nodup prior members
    have hqeq : (s1 + people_per_rotation * i) % dq.length =
        (s2 + people_per_rotation * j) % dq.length :=
      (hnd.getElem_inj_iff).mp (hg1.trans hg2.symm)
    obtain ⟨r, hr, hgr⟩ := List.mem_iff_getElem.mp
      (mem_least_recent_assignees prior members y hy)
    obtain ⟨hkj, hkidx⟩ := fairness_arith dq.length people_per_rotation i j
      ((s2 + people_per_rotation * j) % dq.length) s1 s2 r hs1p hs2p hij hr hqeq rfl
    refine ⟨r / people_per_rotation, hkj, lt_of_le_of_lt hkj hj, ?_⟩
    rw [List.get_eq_getElem, hmem (r / people_per_rotation) (lt_of_le_of_lt hkj hj)]
    rw [mem_shift_iff dq _ _ y hp]
    have hblt : (r % people_per_rotation +
        people_per_rotation * (r / people_per_rotation)) % dq.length < dq.length := by
      rw [hkidx]; exact hr
    refine ⟨r % people_per_rotation, Nat.mod_lt r (by omega), hblt, ?_⟩
    simp only [hkidx]
    exact hgr

theorem generate_additional_rotations_fair_witness :
    ∃ k, k ≤ 2 ∧
      ∃ hk : k < ([⟨-345600, ["alice"]⟩, ⟨259200, ["bob"]⟩,
        ⟨864000, ["alice"]⟩] : List Rotation).length,
        "bob" ∈ (([⟨-345600, ["alice"]⟩, ⟨259200, ["bob"]⟩,
          ⟨864000, ["alice"]⟩] : List Rotation).get ⟨k, hk⟩).members :=
  generate_additional_rotations_fair [] ["alice", "bob"] 1 1 0 3 (by decide)
    [⟨-345600, ["alice"]⟩, ⟨259200, ["bob"]⟩, ⟨864000, ["alice"]⟩] (by rfl)
    0 2 (by decide) (by decide) "alice" "bob" (by decide) (by decide) (by decide)

/-- C7 counterexample: with pool `["alice"]` and `people_per_rotation = 2`,
the extender fails with the deque underflow `IndexError`, not with an
`InsufficientMembers` error — no such error exists in the code. -/
theorem insufficient_pool_wrong_error_counterexample :
    generate_additional_rotations [] ["alice"] 1 2 0 1 = .error .indexError ∧
    ¬ generate_additional_rotations [] ["alice"] 1 2 0 1 =
        .error .insufficientMembers := by
  constructor
  · rfl
  · intro h
    have h2 : (Except.error GenError.indexError : Except GenError (List Rotation)) =
        .error .insufficientMembers := by
      rw [(by rfl : (Except.error GenError.indexError :
        Except GenError (List Rotation)) =
          generate_additional_rotations [] ["alice"] 1 2 0 1), h]
    simp at h2

/-- C7 amended: for every member pool and every `membersPerShift` strictly
greater than the pool size, the extender with an empty prior schedule
fails when asked to produce a shift — but with the `IndexError` raised by
popping an empty deque, not a dedicated `InsufficientMembers` error. -/
theorem insufficient_pool_index_error
    (members : List String) (rotation_length_weeks people_per_rotation : Nat)
    (now : Int) (n : Nat)
    (hlt : members.length < people_per_rotation) (hn : 0 < n) :
    generate_additional_rotations [] members rotation_length_weeks
      people_per_rotation now n = .error .indexError := by
  simp only [generate_additional_rotations]
  have hdq : (least_recent_assignees [] members).length < people_per_rotation :=
    lt_of_le_of_lt (least_recent_assignees_empty_length_le members) hlt
  match n, hn with
  | m + 1, _ =>
    simp only [genRotations, popN_error_of_lt _ _ hdq]

theorem insufficient_pool_index_error_witness :
    (["alice"] : List String).length < 2 ∧ 0 < 1 ∧
      generate_additional_rotations [] ["alice"] 3 2 0 1 = .error .indexError :=
  ⟨by decide, by decide,
    insufficient_pool_index_error ["alice"] 3 2 0 1 (by decide) (by decide)⟩

/-- C9: `main` passes `people_per_rotation` and `rotation_length_weeks`
positionally swapped into `generate_additional_rotations`. With
`--rotation-length-weeks 1` and `--people-per-rotation 2`, pool
`["alice", "bob", "charlie"]` and one prior shift at time 0, the two
appended shifts each contain 1 member (not 2) and start
1209600 s = 2 weeks apart (not the configured 1 week). -/
theorem main_swapped_arguments_divergence :
    main_extra_rotations [⟨0, ["alice"]⟩] ["alice", "bob", "charlie"] 1 2 0 2 =
      .ok [⟨1209600, ["bob"]⟩, ⟨2419200, ["charlie"]⟩] ∧
    ¬ (["bob"] : List String).length = 2 ∧
    (2419200 - 1209600 : Int) = 2 * SECONDS_PER_WEEK ∧
    ¬ (2419200 - 1209600 : Int) = 1 * SECONDS_PER_WEEK :=
  ⟨by rfl, by decide, by decide, by decide⟩

/-- C4: timestamp 1748167200 is Sunday 2025-05-25 10:00:00 UTC. With no
prior rotations the code anchors the first shift at 1747526400
(Sunday 2025-05-18 00:00 UTC, a week early), while the most recent Sunday
00:00 UTC at or before `now` is 1748131200 (2025-05-25 00:00 UTC):
`midnight - timedelta(days=midnight.weekday() + 1)` subtracts 7 days when
`now` is itself a Sunday. -/
theorem sunday_anchor_divergence :
    generate_additional_rotations [] ["alice"] 1 1 1748167200 1 =
      .ok [⟨1747526400, ["alice"]⟩] ∧
    mostRecentSundayMidnightAtOrBefore 1748167200 = 1748131200 ∧
    ¬ (1747526400 : Int) = 1748131200 :=
  ⟨by rfl, by decide, by decide⟩

theorem le_mul_intCeilDiv (a b : Int) (hb : 0 < b) : a ≤ b * intCeilDiv a b := by
  unfold intCeilDiv
  rw [Int.fdiv_eq_ediv _ (le_of_lt hb), mul_neg, mul_comm]
  have h1 : (-a) / b * b ≤ -a := Int.ediv_mul_le (-a) (ne_of_gt hb)
  linarith

theorem one_le_intCeilDiv (a b : Int) (ha : 0 < a) (hb : 0 < b) :
    1 ≤ intCeilDiv a b := by
  unfold intCeilDiv
  rw [Int.fdiv_eq_ediv _ (le_of_lt hb)]
  have h1 : (-a) / b < 0 := Int.ediv_neg' (by omega) hb
  omega

/-- C5: for every non-empty schedule, target time, and positive shift
length, `calculate_rotations_to_cover` returns a non-negative count `N`
with `end_of_last_rotation + N * rotation_length ≥ when`, and `N = 0`
implies the schedule already reaches `when`. -/
theorem calculate_rotations_to_cover_covers (when : Int)
    (rotation_length_weeks : Nat) (current_rotations : List Rotation)
    (hL : 0 < rotation_length_weeks)
    (last : Rotation) (hlast : current_rotations.getLast? = some last) :
    ∃ N, calculate_rotations_to_cover when rotation_length_weeks
        current_rotations = some N ∧
      0 ≤ N ∧
      when ≤ (last.start_time + SECONDS_PER_WEEK * rotation_length_weeks) +
        N * (SECONDS_PER_WEEK * rotation_length_weeks) ∧
      (N = 0 → when ≤ last.start_time + SECONDS_PER_WEEK * rotation_length_weeks) := by
  unfold calculate_rotations_to_cover
  rw [hlast]
  by_cases hcov : when ≤ last.start_time + SECONDS_PER_WEEK * rotation_length_weeks
  · refine ⟨0, by simp [hcov], le_refl 0, by simpa using hcov, fun _ => hcov⟩
  · push_neg at hcov
    have hLZ : (0 : Int) < 7 * (rotation_length_weeks : Int) := by
      have : (1 : Int) ≤ (rotation_length_weeks : Int) := by exact_mod_cast hL
      linarith
    have hdelta : 0 < when - (last.start_time + SECONDS_PER_WEEK * rotation_length_weeks) := by
      omega
    set delta := when - (last.start_time + SECONDS_PER_WEEK * rotation_length_weeks)
      with hdelta_def
    set days := intCeilDiv delta SECONDS_PER_DAY with hdays_def
    set N := intCeilDiv days (7 * rotation_length_weeks) with hN_def
    have hdays1 : 1 ≤ days :=
      one_le_intCeilDiv delta SECONDS_PER_DAY hdelta (by norm_num [SECONDS_PER_DAY])
    have hd : delta ≤ SECONDS_PER_DAY * days :=
      le_mul_intCeilDiv delta SECONDS_PER_DAY (by norm_num [SECONDS_PER_DAY])
    have hN1 : 1 ≤ N := one_le_intCeilDiv days _ (by omega) hLZ
    have hdN : days ≤ (7 * (rotation_length_weeks : Int)) * N :=
      le_mul_intCeilDiv days _ hLZ
    refine ⟨N, ?_, by omega, ?_, by omega⟩
    · simp only [if_neg (not_le.mpr hcov)]
    · have h86400 : SECONDS_PER_DAY * days ≤
          SECONDS_PER_DAY * ((7 * (rotation_length_weeks : Int)) * N) := by
        have hnn : (0 : Int) ≤ SECONDS_PER_DAY := by norm_num [SECONDS_PER_DAY]
        exact mul_le_mul_of_nonneg_left hdN hnn
      have hexpand : SECONDS_PER_DAY * ((7 * (rotation_length_weeks : Int)) * N) =
          N * (SECONDS_PER_WEEK * rotation_length_weeks) := by
        simp only [SECONDS_PER_DAY, SECONDS_PER_WEEK]
        ring
      have hchain : delta ≤ N * (SECONDS_PER_WEEK * rotation_length_weeks) := by
        calc delta ≤ SECONDS_PER_DAY * days := hd
          _ ≤ SECONDS_PER_DAY * ((7 * (rotation_length_weeks : Int)) * N) := h86400
          _ = N * (SECONDS_PER_WEEK * rotation_length_weeks) := hexpand
      omega

theorem calculate_rotations_to_cover_covers_witness :
    ∃ N, calculate_rotations_to_cover 3000000 2 [⟨0, ["alice"]⟩] = some N ∧
      0 ≤ N ∧
      (3000000 : Int) ≤ ((0 : Int) + SECONDS_PER_WEEK * 2) + N * (SECONDS_PER_WEEK * 2) ∧
      (N = 0 → (3000000 : Int) ≤ (0 : Int) + SECONDS_PER_WEEK * 2) :=
  calculate_rotations_to_cover_covers 3000000 2 [⟨0, ["alice"]⟩] (by decide)
    ⟨0, ["alice"]⟩ (by rfl)

theorem run_script_step_eq (cur seen : List String) (en : Bool)
    (ok : SecurityAdvisory → Bool) (acc : List Notification × List String)
    (a : SecurityAdvisory) :
    run_script_step cur seen en ok acc a =
      (acc.1 ++ (notif_attempt cur seen en a).toList,
       acc.2 ++ (match notif_attempt cur seen en a with
         | some _ => if ok a then none else some a.id
         | none => none).toList) := by
  unfold run_script_step notif_attempt
  by_cases h1 : a.id ∈ seen
  · simp [h1]
  · by_cases h2 : a.collaborators.any (fun m => m ∈ cur) = true
    · simp [h1, h2]
    · cases en with
      | false => simp [h1, h2]
      | true =>
        by_cases h3 : ok a = true
        · simp [h1, h2, h3]
        · simp [h1, h2, h3]

theorem run_script_loop_eq (cur seen : List String) (en : Bool)
    (ok : SecurityAdvisory → Bool) :
    ∀ (advs : List SecurityAdvisory) (acc : List Notification × List String),
      advs.foldl (run_script_step cur seen en ok) acc =
        (acc.1 ++ advs.filterMap (notif_attempt cur seen en),
         acc.2 ++ failed_alert_ids advs cur seen en ok) := by
  intro advs
  induction advs with
  | nil =>
    intro acc
    simp [failed_alert_ids]
  | cons a rest ih =>
    intro acc
    rw [List.foldl_cons, ih, run_script_step_eq]
    simp only [failed_alert_ids, List.filterMap_cons]
    cases hna : notif_attempt cur seen en a with
    | none => simp [hna]
    | some nt =>
      by_cases h3 : ok a = true
      · simp [hna, h3]
      · simp [hna, h3, eq_false_of_ne_true h3]

theorem run_script_notifs (advs : List SecurityAdvisory) (cur : List String)
    (st : ScriptState) (en : Bool) (ok : SecurityAdvisory → Bool) :
    (run_script advs cur st en ok).1 =
      advs.filterMap (notif_attempt cur st.seen_advisories en) := by
  unfold run_script
  rw [run_script_loop_eq]
  simp

theorem run_script_seen (advs : List SecurityAdvisory) (cur : List String)
    (st : ScriptState) (en : Bool) (ok : SecurityAdvisory → Bool) :
    (run_script advs cur st en ok).2.seen_advisories =
      sortedStrings ((advs.filter (fun a =>
        a.id ∉ failed_alert_ids advs cur st.seen_advisories en ok)).map
          (fun a => a.id)) := by
  unfold run_script
  rw [run_script_loop_eq]
  simp

theorem run_script_last_alert (advs : List SecurityAdvisory) (cur : List String)
    (st : ScriptState) (en : Bool) (ok : SecurityAdvisory → Bool) :
    (run_script advs cur st en ok).2.last_alert_about_rotation =
      st.last_alert_about_rotation := rfl

theorem mem_sortedStrings (l : List String) (x : String) :
    x ∈ sortedStrings l ↔ x ∈ l :=
  (List.perm_insertionSort _ l).mem_iff

theorem mem_failed_alert_ids (advs : List SecurityAdvisory) (cur seen : List String)
    (en : Bool) (ok : SecurityAdvisory → Bool) (i : String) :
    i ∈ failed_alert_ids advs cur seen en ok ↔
      ∃ a, a ∈ advs ∧ a.id = i ∧
        ¬ notif_attempt cur seen en a = none ∧ ok a = false := by
  unfold failed_alert_ids
  rw [List.mem_filterMap]
  constructor
  · rintro ⟨a, ha, hfa⟩
    cases hna : notif_attempt cur seen en a with
    | none => rw [hna] at hfa; simp at hfa
    | some nt =>
      rw [hna] at hfa
      by_cases h3 : ok a = true
      · simp [h3] at hfa
      · simp only [eq_false_of_ne_true h3, if_false] at hfa
        exact ⟨a, ha, Option.some_inj.mp hfa, by simp [hna], eq_false_of_ne_true h3⟩
  · rintro ⟨a, ha, hid, hat, hok⟩
    refine ⟨a, ha, ?_⟩
    cases hna : notif_attempt cur seen en a with
    | none => exact absurd hna hat
    | some nt => simp [hok, hid]

theorem notif_attempt_none_of_skip (cur seen : List String) (en : Bool)
    (a : SecurityAdvisory)
    (h : a.id ∈ seen ∨ a.collaborators.any (fun m => m ∈ cur) = true) :
    notif_attempt cur seen en a = none := by
  unfold notif_attempt
  rcases h with h | h
  · simp [h]
  · by_cases h1 : a.id ∈ seen
    · simp [h1]
    · simp [h1, h]

theorem notif_attempt_attempted (cur seen : List String) (a : SecurityAdvisory)
    (h1 : a.id ∉ seen) (h2 : a.collaborators.any (fun m => m ∈ cur) = false) :
    notif_attempt cur seen true a = some ⟨a, current_oncall_of cur⟩ := by
  unfold notif_attempt
  simp [h1, h2]

theorem notif_attempt_advisory (cur seen : List String) (en : Bool)
    (a : SecurityAdvisory) (nt : Notification)
    (h : notif_attempt cur seen en a = some nt) : nt.advisory = a := by
  unfold notif_attempt at h
  by_cases h1 : a.id ∈ seen
  · simp [h1] at h
  · by_cases h2 : a.collaborators.any (fun m => m ∈ cur) = true
    · simp [h1, h2] at h
    · cases en with
      | false => simp [h1, h2] at h
      | true =>
        simp only [if_neg h1, h2, Bool.false_eq_true, if_false, if_true,
          Option.some_inj] at h
        rw [← h]

theorem nodup_ids_inj (advs : List SecurityAdvisory)
    (h : (advs.map (fun a => a.id)).Nodup) :
    ∀ a, a ∈ advs → ∀ b, b ∈ advs → a.id = b.id → a = b := by
  induction advs with
  | nil => intro a ha; cases ha
  | cons c rest ih =>
    intro a ha b hb hab
    simp only [List.map_cons, List.nodup_cons] at h
    obtain ⟨hc, hrest⟩ := h
    rcases List.mem_cons.mp ha with rfl | ha2
    · rcases List.mem_cons.mp hb with rfl | hb2
      · rfl
      · exact absurd (hab ▸ List.mem_map_of_mem (fun x => x.id) hb2) hc
    · rcases List.mem_cons.mp hb with rfl | hb2
      · exact absurd (hab ▸ List.mem_map_of_mem (fun x => x.id) ha2) hc
      · exact ih hrest a ha2 b hb2 hab

/-- C1: after `run_script` attempts all sends, the new `seen_advisories`
holds exactly the fetched ids minus the ids whose send failed; skipped ids
(already seen, or with an on-call collaborator) are included, ids absent
from the fetched list are dropped, and when the only item's send fails the
new seen set is empty. -/
theorem run_script_seen_ids_exact
    (advs : List SecurityAdvisory) (cur : List String) (st : ScriptState)
    (en : Bool) (ok : SecurityAdvisory → Bool)
    (hnodup : (advs.map (fun a => a.id)).Nodup) :
    (∀ i, i ∈ (run_script advs cur st en ok).2.seen_advisories ↔
        (i ∈ advs.map (fun a => a.id) ∧
          i ∉ failed_alert_ids advs cur st.seen_advisories en ok)) ∧
    (∀ a, a ∈ advs →
      (a.id ∈ st.seen_advisories ∨ a.collaborators.any (fun m => m ∈ cur) = true) →
      a.id ∈ (run_script advs cur st en ok).2.seen_advisories) ∧
    (∀ i, i ∉ advs.map (fun a => a.id) →
      i ∉ (run_script advs cur st en ok).2.seen_advisories) ∧
    (∀ (b : SecurityAdvisory) (cur2 : List String) (st2 : ScriptState)
        (ok2 : SecurityAdvisory → Bool),
      ok2 b = false → b.id ∉ st2.seen_advisories →
      b.collaborators.any (fun m => m ∈ cur2) = false →
      (run_script [b] cur2 st2 true ok2).2.seen_advisories = []) := by
  have hiff : ∀ i, i ∈ (run_script advs cur st en ok).2.seen_advisories ↔
      (i ∈ advs.map (fun a => a.id) ∧
        i ∉ failed_alert_ids advs cur st.seen_advisories en ok) := by
    intro i
    rw [run_script_seen, mem_sortedStrings, List.mem_map]
    constructor
    · rintro ⟨a, hafil, hai⟩
      rw [List.mem_filter] at hafil
      obtain ⟨ha, hnf⟩ := hafil
      subst hai
      exact ⟨List.mem_map_of_mem (fun a => a.id) ha, by simpa using hnf⟩
    · rintro ⟨hmem, hnf⟩
      obtain ⟨a, ha, hai⟩ := List.mem_map.mp hmem
      subst hai
      refine ⟨a, ?_, rfl⟩
      rw [List.mem_filter]
      exact ⟨ha, by simpa using hnf⟩
  refine ⟨hiff, ?_, ?_, ?_⟩
  · intro a ha hskipcase
    refine (hiff a.id).mpr ⟨List.mem_map_of_mem (fun a => a.id) ha, ?_⟩
    intro hfail
    obtain ⟨b, hb, hbid, hbat, hbok⟩ :=
      (mem_failed_alert_ids advs cur st.seen_advisories en ok a.id).mp hfail
    have hba : b = a := nodup_ids_inj advs hnodup b hb a ha hbid
    subst hba
    exact hbat (notif_attempt_none_of_skip cur st.seen_advisories en b hskipcase)
  · intro i hmem hin
    exact hmem ((hiff i).mp hin).1
  · intro b cur2 st2 ok2 hok hseen hcol
    rw [run_script_seen]
    have hfail : failed_alert_ids [b] cur2 st2.seen_advisories true ok2 = [b.id] := by
      unfold failed_alert_ids
      simp [notif_attempt_attempted cur2 st2.seen_advisories b hseen hcol, hok]
    rw [hfail]
    simp [sortedStrings, List.insertionSort]

theorem run_script_seen_ids_exact_witness :
    "GHSA-1" ∈ (run_script [⟨"GHSA-1", "t", []⟩] ["dave"] ⟨[], none⟩ true
        (fun _ => true)).2.seen_advisories ↔
      ("GHSA-1" ∈ ([⟨"GHSA-1", "t", []⟩] : List SecurityAdvisory).map (fun a => a.id) ∧
        "GHSA-1" ∉ failed_alert_ids [⟨"GHSA-1", "t", []⟩] ["dave"] [] true
          (fun _ => true)) :=
  (run_script_seen_ids_exact [⟨"GHSA-1", "t", []⟩] ["dave"] ⟨[], none⟩ true
    (fun _ => true) (by decide)).1 "GHSA-1"

/-- C2 counterexample: with one unseen item whose send fails, the first
run leaves `seen_advisories` empty, so a second run with the same inputs
and the first run's output state emits one notification again, not zero.
-/
theorem reconcile_not_idempotent_after_failed_send :
    (run_script [⟨"GHSA-1", "t", []⟩] ["dave"]
      (run_script [⟨"GHSA-1", "t", []⟩] ["dave"] ⟨[], none⟩ true
        (fun _ => false)).2
      true (fun _ => false)).1 =
      [⟨⟨"GHSA-1", "t", []⟩, ["dave"]⟩] ∧
    ¬ (run_script [⟨"GHSA-1", "t", []⟩] ["dave"]
      (run_script [⟨"GHSA-1", "t", []⟩] ["dave"] ⟨[], none⟩ true
        (fun _ => false)).2
      true (fun _ => false)).1 = [] := by
  constructor
  · rfl
  · intro h
    rw [(by rfl : (run_script [⟨"GHSA-1", "t", []⟩] ["dave"]
      (run_script [⟨"GHSA-1", "t", []⟩] ["dave"] ⟨[], none⟩ true
        (fun _ => false)).2
      true (fun _ => false)).1 =
      [⟨⟨"GHSA-1", "t", []⟩, ["dave"]⟩])] at h
    cases h

/-- C2 amended: if every send in the first run succeeds, a second
`run_script` with the same open items and on-call set, fed the first run's
output state, emits zero notifications — whatever the second run's email
mode and send outcomes. -/
theorem reconcile_idempotent_when_sends_succeed
    (advs : List SecurityAdvisory) (cur : List String) (st : ScriptState)
    (en1 en2 : Bool) (ok1 ok2 : SecurityAdvisory → Bool)
    (h : ∀ a, a ∈ advs → ok1 a = true) :
    (run_script advs cur (run_script advs cur st en1 ok1).2 en2 ok2).1 = [] := by
  rw [run_script_notifs]
  have hseen : ∀ a, a ∈ advs →
      a.id ∈ (run_script advs cur st en1 ok1).2.seen_advisories := by
    intro a ha
    rw [run_script_seen, mem_sortedStrings, List.mem_map]
    refine ⟨a, ?_, rfl⟩
    rw [List.mem_filter]
    refine ⟨ha, ?_⟩
    simp only [decide_eq_true_eq]
    intro hfail
    obtain ⟨b, hb, hbid, hbat, hbok⟩ :=
      (mem_failed_alert_ids advs cur st.seen_advisories en1 ok1 a.id).mp hfail
    simp [h b hb] at hbok
  rw [List.filterMap_eq_nil_iff]
  intro a ha
  exact notif_attempt_none_of_skip cur _ en2 a (Or.inl (hseen a ha))

theorem reconcile_idempotent_when_sends_succeed_witness :
    (run_script [⟨"GHSA-1", "t", []⟩] ["dave"]
      (run_script [⟨"GHSA-1", "t", []⟩] ["dave"] ⟨[], none⟩ true
        (fun _ => true)).2
      true (fun _ => true)).1 = [] :=
  reconcile_idempotent_when_sends_succeed [⟨"GHSA-1", "t", []⟩] ["dave"]
    ⟨[], none⟩ true true (fun _ => true) (fun _ => true) (fun _ _ => rfl)

theorem filter_notifs_of_none_match (cur seen : List String) (en : Bool)
    (aid : String) :
    ∀ (l : List SecurityAdvisory), (∀ b, b ∈ l → ¬ b.id = aid) →
      (l.filterMap (notif_attempt cur seen en)).filter
        (fun nt => nt.advisory.id = aid) = [] := by
  intro l
  induction l with
  | nil => intro _; simp
  | cons b rest ih =>
    intro hb
    rw [List.filterMap_cons]
    cases hnb : notif_attempt cur seen en b with
    | none => exact ih (fun c hc => hb c (List.mem_cons_of_mem b hc))
    | some nt =>
      have hadv : nt.advisory = b := notif_attempt_advisory _ _ _ _ _ hnb
      have hne : ¬ nt.advisory.id = aid := by
        rw [hadv]; exact hb b (List.mem_cons_self b rest)
      rw [List.filter_cons, if_neg (by simp [hne])]
      exact ih (fun c hc => hb c (List.mem_cons_of_mem b hc))

theorem filter_notifs_singleton (cur seen : List String)
    (a : SecurityAdvisory) :
    ∀ (advs : List SecurityAdvisory), (advs.map (fun x => x.id)).Nodup →
      a ∈ advs → a.id ∉ seen →
      a.collaborators.any (fun m => m ∈ cur) = false →
      (advs.filterMap (notif_attempt cur seen true)).filter
        (fun nt => nt.advisory.id = a.id) = [⟨a, current_oncall_of cur⟩] := by
  intro advs
  induction advs with
  | nil => intro _ ha; cases ha
  | cons b rest ih =>
    intro hnd ha hseen hcol
    simp only [List.map_cons, List.nodup_cons] at hnd
    obtain ⟨hbni, hndr⟩ := hnd
    rcases List.mem_cons.mp ha with rfl | ha2
    · rw [List.filterMap_cons, notif_attempt_attempted cur seen a hseen hcol]
      have hrest : (rest.filterMap (notif_attempt cur seen true)).filter
          (fun nt => nt.advisory.id = a.id) = [] :=
        filter_notifs_of_none_match cur seen true a.id rest
          (fun c hc hceq => hbni (hceq ▸ List.mem_map_of_mem (fun x => x.id) hc))
      rw [List.filter_cons, if_pos (by simp)]
      rw [hrest]
    · have hbne : ¬ b.id = a.id :=
        fun he => hbni (he ▸ List.mem_map_of_mem (fun x => x.id) ha2)
      rw [List.filterMap_cons]
      cases hnb : notif_attempt cur seen true b with
      | none => exact ih hndr ha2 hseen hcol
      | some nt =>
        have hadv : nt.advisory = b := notif_attempt_advisory _ _ _ _ _ hnb
        have hne : ¬ nt.advisory.id = a.id := by rw [hadv]; exact hbne
        rw [List.filter_cons, if_neg (by simp [hne])]
        exact ih hndr ha2 hseen hcol

/-- C8: for every open item neither already seen nor having an on-call
collaborator, `run_script` (with email enabled) attempts exactly one
notification for it, and that notification names exactly the current
on-call member set; in the scenario with one unseen item with no
collaborators and on-call `{dave}`, the single notification is addressed
to `dave`. -/
theorem run_script_notifies_all_oncall
    (advs : List SecurityAdvisory) (cur : List String) (st : ScriptState)
    (ok : SecurityAdvisory → Bool) (a : SecurityAdvisory)
    (hnodup : (advs.map (fun x => x.id)).Nodup)
    (ha : a ∈ advs) (hseen : a.id ∉ st.seen_advisories)
    (hcol : a.collaborators.any (fun m => m ∈ cur) = false) :
    ((run_script advs cur st true ok).1.filter
        (fun nt => nt.advisory.id = a.id) = [⟨a, current_oncall_of cur⟩]) ∧
    (∀ x, x ∈ current_oncall_of cur ↔ x ∈ cur) ∧
    (∀ g : SecurityAdvisory → Bool,
      (run_script [⟨"GHSA-1", "t", []⟩] ["dave"] ⟨[], none⟩ true g).1 =
        [⟨⟨"GHSA-1", "t", []⟩, ["dave"]⟩]) := by
  refine ⟨?_, ?_, ?_⟩
  · rw [run_script_notifs]
    exact filter_notifs_singleton cur st.seen_advisories a advs hnodup ha hseen hcol
  · intro x
    unfold current_oncall_of
    rw [mem_sortedStrings, List.mem_dedup]
  · intro g
    rw [run_script_notifs]
    rfl

theorem run_script_notifies_all_oncall_witness :
    (run_script [⟨"GHSA-9", "x", []⟩] ["dave", "carol"] ⟨["other"], none⟩ true
        (fun _ => true)).1.filter
      (fun nt => nt.advisory.id = ("GHSA-9" : String)) =
      [⟨⟨"GHSA-9", "x", []⟩, current_oncall_of ["dave", "carol"]⟩] :=
  (run_script_notifies_all_oncall [⟨"GHSA-9", "x", []⟩] ["dave", "carol"]
    ⟨["other"], none⟩ (fun _ => true) ⟨"GHSA-9", "x", []⟩
    (by decide) (by decide) (by decide) (by decide)).1

theorem maybe_email_alerted_state (now : Int) (en ok : Bool) (st : ScriptState)
    (rs : Option RotationState)
    (h : (maybe_email_about_rotation_end now en ok st rs).1 = true) :
    (maybe_email_about_rotation_end now en ok st rs).2 =
      { st with last_alert_about_rotation := some now } := by
  cases rs with
  | none =>
    simp only [maybe_email_about_rotation_end] at h ⊢
    by_cases hc2 : (pyTruthy st.last_alert_about_rotation &&
        decide (now - st.last_alert_about_rotation.getD 0 <
          SECONDS_BETWEEN_ROTATION_REFRESH_EMAILS)) = true
    · simp [hc2] at h
    · cases en with
      | false => simp [hc2]
      | true =>
        cases ok with
        | false => simp [hc2] at h
        | true => simp [hc2]
  | some r =>
    simp only [maybe_email_about_rotation_end] at h ⊢
    by_cases hc1 : (r.final_rotation_start - now >
        SECONDS_BEFORE_ROTATION_LIST_END_TO_NAG)
    · simp [hc1] at h
    · by_cases hc2 : (pyTruthy st.last_alert_about_rotation &&
          decide (now - st.last_alert_about_rotation.getD 0 <
            SECONDS_BETWEEN_ROTATION_REFRESH_EMAILS)) = true
      · simp [hc1, hc2] at h
      · cases en with
        | false => simp [hc1, hc2]
        | true =>
          cases ok with
          | false => simp [hc1, hc2] at h
          | true => simp [hc1, hc2]

theorem maybe_email_no_alert_within_cooldown (now2 : Int) (en ok : Bool)
    (st2 : ScriptState) (rs : Option RotationState) (t : Int)
    (hlast : st2.last_alert_about_rotation = some t) (hnz : t ≠ 0)
    (hcd : now2 - t < SECONDS_BETWEEN_ROTATION_REFRESH_EMAILS) :
    (maybe_email_about_rotation_end now2 en ok st2 rs).1 = false := by
  have hc2 : (pyTruthy st2.last_alert_about_rotation &&
      decide (now2 - st2.last_alert_about_rotation.getD 0 <
        SECONDS_BETWEEN_ROTATION_REFRESH_EMAILS)) = true := by
    rw [hlast]
    simp [pyTruthy, hnz, hcd]
  cases rs with
  | none =>
    simp only [maybe_email_about_rotation_end] at hc2 ⊢
    simp [hc2]
  | some r =>
    simp only [maybe_email_about_rotation_end] at hc2 ⊢
    by_cases hc1 : (r.final_rotation_start - now2 >
        SECONDS_BEFORE_ROTATION_LIST_END_TO_NAG)
    · simp [hc1]
    · simp [hc1, hc2]

/-- C6 counterexample: a first gate call at timestamp 0 (the Unix epoch)
alerts and records `last_alert_about_rotation = 0.0`, but the Python
truthiness test `if state.last_alert_about_rotation:` treats `0.0` as
unset, so a second call one second later — well inside the 24 h cooldown —
alerts again: two alerts within the cooldown. -/
theorem gate_cooldown_epoch_counterexample :
    (maybe_email_about_rotation_end 0 false false ⟨[], none⟩
        (some ⟨[], [], 0⟩)).1 = true ∧
    (maybe_email_about_rotation_end 1 false false
        (maybe_email_about_rotation_end 0 false false ⟨[], none⟩
          (some ⟨[], [], 0⟩)).2
        (some ⟨[], [], 0⟩)).1 = true ∧
    (1 : Int) - 0 < SECONDS_BETWEEN_ROTATION_REFRESH_EMAILS ∧
    (0 : Int) - 1 < SECONDS_BETWEEN_ROTATION_REFRESH_EMAILS := by decide

/-- C6 amended: two calls to the exhaustion gate whose `now` timestamps
lie within the cooldown of each other, the second receiving the first's
returned state, produce at most one alert — provided the first call's
timestamp is not exactly 0, the epoch value that the truthiness test
treats as unset. -/
theorem gate_cooldown (now1 now2 : Int) (st : ScriptState)
    (rs1 rs2 : Option RotationState) (en1 en2 ok1 ok2 : Bool)
    (hnz : now1 ≠ 0)
    (h12 : now2 - now1 < SECONDS_BETWEEN_ROTATION_REFRESH_EMAILS)
    (_h21 : now1 - now2 < SECONDS_BETWEEN_ROTATION_REFRESH_EMAILS) :
    ¬ ((maybe_email_about_rotation_end now1 en1 ok1 st rs1).1 = true ∧
       (maybe_email_about_rotation_end now2 en2 ok2
         (maybe_email_about_rotation_end now1 en1 ok1 st rs1).2 rs2).1 = true) := by
  rintro ⟨h1, h2⟩
  have hst : (maybe_email_about_rotation_end now1 en1 ok1 st rs1).2 =
      { st with last_alert_about_rotation := some now1 } :=
    maybe_email_alerted_state now1 en1 ok1 st rs1 h1
  rw [hst] at h2
  have := maybe_email_no_alert_within_cooldown now2 en2 ok2
    { st with last_alert_about_rotation := some now1 } rs2 now1 rfl hnz h12
  rw [this] at h2
  cases h2

theorem gate_cooldown_witness :
    (3600 : Int) ≠ 0 ∧
    (7200 : Int) - 3600 < SECONDS_BETWEEN_ROTATION_REFRESH_EMAILS ∧
    (3600 : Int) - 7200 < SECONDS_BETWEEN_ROTATION_REFRESH_EMAILS ∧
    ¬ ((maybe_email_about_rotation_end 3600 false false ⟨[], none⟩
          (some ⟨[], [], 0⟩)).1 = true ∧
       (maybe_email_about_rotation_end 7200 false false
         (maybe_email_about_rotation_end 3600 false false ⟨[], none⟩
           (some ⟨[], [], 0⟩)).2 (some ⟨[], [], 0⟩)).1 = true) :=
  ⟨by decide, by decide, by decide,
    gate_cooldown 3600 7200 ⟨[], none⟩ (some ⟨[], [], 0⟩) (some ⟨[], [], 0⟩)
      false false false false (by decide) (by decide) (by decide)⟩

/-- C10: when the persisted state file does not exist
(`FileNotFoundError`), loading returns the empty state — empty
seen-advisories list and no last gate alert timestamp — rather than
failing, so a first-ever run treats every open item as unseen. -/
theorem load_from_file_missing_gives_empty_state :
    ScriptState.load_from_file none =
      { seen_advisories := [], last_alert_about_rotation := none } := rfl
